import Mathlib

/-!
Verification of the Change Staging and Reconciliation Engine of the Devonz
repository (the staging store module).

The TypeScript module keeps a record of staged file changes keyed by file
path, a queue of pending shell commands, and staging settings, and reconciles
accepted and rejected changes against an external filesystem host
(WebContainer, called ProjectHost in the specification).

Embedding conventions:
- The nanostores map store becomes an explicit StagingState value threaded
  through every operation; the changes record (a JavaScript object with
  string keys, which preserves insertion order and keeps the original
  position of a key on re-assignment) becomes an association list.
- Date.now and the random id generator are nondeterministic inputs; they are
  passed as explicit parameters (now, id).
- The WebContainer fs argument becomes a Host record of functions returning
  Except String Unit; a thrown JavaScript error is the error case carrying
  the stringified message. Every host invocation is additionally recorded in
  a HostCall trace so that theorems can speak about which filesystem calls
  were made.
- JavaScript string operations (split, replace, trim, startsWith, endsWith,
  the ad hoc regex built from a glob pattern) are re-implemented on lists of
  characters with the same semantics on the inputs the module handles; the
  glob-to-regex compilation (escape each dot, expand each star to dot-star,
  anchor both ends) is modelled by the backtracking matcher reMatch, which
  treats a star as an arbitrary-gap wildcard and every other character
  literally, exactly the language of the compiled anchored regex for
  patterns whose remaining characters carry no other regex metacharacters.
-/

namespace Devonz

/-! ## Data model (types from the staging store module) -/

/-- Type of file change being staged. -/
inductive ChangeType
  | create
  | modify
  | delete
deriving DecidableEq, Repr

/-- Status of a staged change. -/
inductive ChangeStatus
  | pending
  | accepted
  | rejected
deriving DecidableEq, Repr

/-- A single staged file change (interface StagedChange). -/
structure StagedChange where
  id : String
  filePath : String
  type : ChangeType
  originalContent : Option String
  newContent : String
  timestamp : Nat
  status : ChangeStatus
  actionId : String
  autoApproved : Bool
  description : Option String
deriving DecidableEq, Repr

/-- The caller-supplied part of a staged change: Omit of id, timestamp,
status and autoApproved from StagedChange. -/
structure ChangeInput where
  filePath : String
  type : ChangeType
  originalContent : Option String
  newContent : String
  actionId : String
  description : Option String
deriving DecidableEq, Repr

/-- Settings for the staging system (interface StagingSettings). -/
structure StagingSettings where
  isEnabled : Bool
  autoApproveEnabled : Bool
  autoApprovePatterns : List String
  requireDeleteConfirmation : Bool
  showInlineDiffPreview : Bool
  autoCheckpointOnAccept : Bool
deriving DecidableEq, Repr

/-- Type of a queued command: shell or start. -/
inductive CommandType
  | shell
  | start
deriving DecidableEq, Repr

/-- A queued shell or start command (interface PendingCommand). -/
structure PendingCommand where
  id : String
  type : CommandType
  command : String
  timestamp : Nat
  artifactId : String
  title : Option String
deriving DecidableEq, Repr

/-- The caller-supplied part of a pending command: Omit of id and timestamp
from PendingCommand. -/
structure CommandInput where
  type : CommandType
  command : String
  artifactId : String
  title : Option String
deriving DecidableEq, Repr

/-- Full staging store state (interface StagingState). The changes record is
an association list from file path to staged change, in insertion order. -/
structure StagingState where
  changes : List (String × StagedChange)
  selectedChangePath : Option String
  isDiffModalOpen : Bool
  settings : StagingSettings
  pendingCommands : List PendingCommand
deriving DecidableEq, Repr

/-! ## String helpers (JavaScript string operations on character lists) -/

/-- Whether the first list is a leading segment of the second
(JavaScript String.startsWith on character lists). -/
def hasPre : List Char → List Char → Bool
  | [], _ => true
  | _ :: _, [] => false
  | p :: ps, c :: cs => p == c && hasPre ps cs

/-- JavaScript String.startsWith. -/
def strStarts (s pre : String) : Bool :=
  hasPre pre.data s.data

/-- JavaScript String.endsWith. -/
def strEnds (s suf : String) : Bool :=
  hasPre suf.data.reverse s.data.reverse

/-- Find the first occurrence of sep; return the characters before it and
the characters after it. -/
def splitFirst (sep : List Char) : List Char → Option (List Char × List Char)
  | [] => none
  | c :: cs =>
    if hasPre sep (c :: cs) then some ([], (c :: cs).drop sep.length)
    else
      match splitFirst sep cs with
      | some (pre, post) => some (c :: pre, post)
      | none => none

/-- Split on every non-overlapping occurrence of sep, left to right, with
explicit fuel (for a non-empty sep, fuel equal to the length of the input
plus one always suffices, since each found occurrence consumes at least one
character). -/
def splitAllAux (sep : List Char) : Nat → List Char → List (List Char)
  | 0, s => [s]
  | Nat.succ fuel, s =>
    match splitFirst sep s with
    | none => [s]
    | some (pre, post) => pre :: splitAllAux sep fuel post

/-- JavaScript String.split with a non-empty string separator. -/
def splitOnStr (s sep : String) : List String :=
  (splitAllAux sep.data (s.data.length + 1) s.data).map (fun l => String.mk l)

/-- JavaScript path.split slash, pop: the basename of a path
(split on slash and take the last segment, empty string as fallback). -/
def lastSeg (s : String) : String :=
  (splitOnStr s "/").getLastD ""

/-- Replace every backslash by a forward slash
(filePath.replace of a global backslash regex with a slash). -/
def normalizeSlashes (s : String) : String :=
  String.mk (s.data.map (fun c => if c == '\\' then '/' else c))

/-- JavaScript String.trim restricted to ASCII whitespace. -/
def jsTrim (s : String) : String :=
  String.mk (((s.data.dropWhile Char.isWhitespace).reverse.dropWhile
    Char.isWhitespace).reverse)

/-- Normalization applied to a command before duplicate comparison:
command.trim followed by replacing every CRLF by LF. -/
def normalizeCommandText (s : String) : String :=
  String.intercalate "\n" (splitOnStr (jsTrim s) "\r\n")

/-- Strip the project root marker:
filePath.replace of the anchored regex slash-home-slash-project-optional-slash
with the empty string (the greedy optional slash takes the longer match). -/
def stripRoot (p : String) : String :=
  if strStarts p "/home/project/" then String.mk (p.data.drop 14)
  else if strStarts p "/home/project" then String.mk (p.data.drop 13)
  else p

/-- The directory part of a relative path:
split on slash, drop the last segment, join back with slash. -/
def dirNameOf (rel : String) : String :=
  String.intercalate "/" ((splitOnStr rel "/").dropLast)

/-! ## Pattern matcher -/

/-- Helper for the star wildcard: whether the continuation matcher accepts
some suffix of the input (the dot-star of the compiled regex may swallow any
leading segment). -/
def reMatchAnyTail (re : List Char → Bool) : List Char → Bool
  | [] => re []
  | c :: cs => re (c :: cs) || reMatchAnyTail re cs

/-- The language of the anchored regex compiled from a single-star glob
pattern (each dot escaped, each star expanded to dot-star): a star matches
any sequence of characters, every other pattern character matches itself. -/
def reMatch : List Char → List Char → Bool
  | [], s => s.isEmpty
  | p :: ps, s =>
    if p == '*' then reMatchAnyTail (reMatch ps) s
    else
      match s with
      | [] => false
      | c :: s2 => p == c && reMatch ps s2

/-- Evaluation of one auto-approve pattern against the normalized path,
following the three branches of the source loop body. Splitting the pattern
on the double star yields a single part exactly when the pattern has no
double star occurrence (the includes test of the source), two parts exactly
when it has one occurrence (the supported directory glob), and three or more
parts otherwise (unsupported, never matches). -/
def matchOnePattern (normalizedPath : String) (pattern : String) : Bool :=
  match splitOnStr pattern "**" with
  | [a, b] => strStarts normalizedPath a && strEnds normalizedPath b
  | [_] =>
    if pattern.data.contains '*' then
      reMatch pattern.data normalizedPath.data ||
        reMatch pattern.data (lastSeg normalizedPath).data
    else
      normalizedPath == pattern || lastSeg normalizedPath == pattern
  | _ => false

/-- Check whether a file path matches any of the auto-approve patterns
(function matchesAutoApprovePattern). -/
def matchesAutoApprovePattern (filePath : String) (patterns : List String) : Bool :=
  let normalizedPath := normalizeSlashes filePath
  patterns.any (fun pattern => matchOnePattern normalizedPath pattern)

/-! ## Default values and initial state -/

/-- The fixed default auto-approve pattern list. -/
def DEFAULT_AUTO_APPROVE_PATTERNS : List String :=
  ["package-lock.json", "pnpm-lock.yaml", "yarn.lock", "*.lock",
   "node_modules/**", ".git/**", "*.log"]

/-- The default staging settings. -/
def DEFAULT_SETTINGS : StagingSettings :=
  { isEnabled := true
    autoApproveEnabled := true
    autoApprovePatterns := DEFAULT_AUTO_APPROVE_PATTERNS
    requireDeleteConfirmation := true
    showInlineDiffPreview := true
    autoCheckpointOnAccept := true }

/-- The initial store value (with no saved settings in local storage, the
settings loader falls back to the defaults). -/
def initialStagingState : StagingState :=
  { changes := []
    selectedChangePath := none
    isDiffModalOpen := false
    settings := DEFAULT_SETTINGS
    pendingCommands := [] }

/-! ## Association list helpers (JavaScript record with string keys) -/

/-- Record lookup: the value at a key, if present. -/
def lookupChange (changes : List (String × StagedChange)) (k : String) :
    Option StagedChange :=
  (changes.find? (fun kv => kv.1 == k)).map (fun kv => kv.2)

/-- Record assignment by spread: if the key is present, the entry keeps its
position and receives the new value; otherwise the entry is appended. -/
def upsert (changes : List (String × StagedChange)) (k : String)
    (v : StagedChange) : List (String × StagedChange) :=
  if changes.any (fun kv => kv.1 == k) then
    changes.map (fun kv => if kv.1 == k then (kv.1, v) else kv)
  else changes ++ [(k, v)]

/-! ## Store actions -/

/-- The auto-approval computation inside stageChange: no auto-approval when
the switch is off; a delete is never auto-approved while delete confirmation
is required; otherwise the pattern matcher decides. -/
def computeAutoApproved (s : StagingSettings) (filePath : String)
    (t : ChangeType) : Bool :=
  if s.autoApproveEnabled then
    if t = ChangeType.delete ∧ s.requireDeleteConfirmation then false
    else matchesAutoApprovePattern filePath s.autoApprovePatterns
  else false

/-- Stage a new file change (function stageChange). The generated id and the
current time are explicit parameters. Returns the created record (none when
staging is disabled) together with the updated store state. -/
def stageChange (input : ChangeInput) (id : String) (now : Nat)
    (st : StagingState) : Option StagedChange × StagingState :=
  if !st.settings.isEnabled then (none, st)
  else
    let autoApproved :=
      computeAutoApproved st.settings input.filePath input.type
    let staged : StagedChange :=
      { id := id
        filePath := input.filePath
        type := input.type
        originalContent := input.originalContent
        newContent := input.newContent
        timestamp := now
        status := if autoApproved then ChangeStatus.accepted
                  else ChangeStatus.pending
        actionId := input.actionId
        autoApproved := autoApproved
        description := input.description }
    (some staged, { st with changes := upsert st.changes input.filePath staged })

/-- A sequence of stageChange calls, each with its input, generated id and
timestamp, applied in order. -/
def stageMany (steps : List (ChangeInput × String × Nat))
    (st : StagingState) : StagingState :=
  steps.foldl (fun s step => (stageChange step.1 step.2.1 step.2.2 s).2) st

/-- The target resolution shared by acceptChange and rejectChange: exact
path key first, then a linear scan of the entries for a matching id. -/
def findByPathOrId (changes : List (String × StagedChange)) (key : String) :
    Option (String × StagedChange) :=
  match changes.find? (fun kv => kv.1 == key) with
  | some kv => some kv
  | none => changes.find? (fun kv => kv.2.id == key)

/-- Accept a single staged change (function acceptChange). Returns the
updated record on success, none if the target is missing or not pending. -/
def acceptChange (key : String) (st : StagingState) :
    Option StagedChange × StagingState :=
  match findByPathOrId st.changes key with
  | none => (none, st)
  | some (changePath, c) =>
    if c.status ≠ ChangeStatus.pending then (none, st)
    else
      let updated := { c with status := ChangeStatus.accepted }
      (some updated, { st with changes := upsert st.changes changePath updated })

/-- Reject a single staged change (function rejectChange). Returns the
updated record on success, none if the target is missing or not pending. -/
def rejectChange (key : String) (st : StagingState) :
    Option StagedChange × StagingState :=
  match findByPathOrId st.changes key with
  | none => (none, st)
  | some (changePath, c) =>
    if c.status ≠ ChangeStatus.pending then (none, st)
    else
      let updated := { c with status := ChangeStatus.rejected }
      (some updated, { st with changes := upsert st.changes changePath updated })

/-- Remove a change from staging (function removeChange): drop the entry at
the key if present, clearing the selection when it pointed at that key. -/
def removeChange (filePath : String) (st : StagingState) : StagingState :=
  match lookupChange st.changes filePath with
  | some _ =>
    { st with
      changes := st.changes.filter (fun kv => decide (kv.1 ≠ filePath))
      selectedChangePath :=
        if st.selectedChangePath = some filePath then none
        else st.selectedChangePath }
  | none => st

/-- Get a specific change by file path (function getChangeForFile). -/
def getChangeForFile (filePath : String) (st : StagingState) :
    Option StagedChange :=
  lookupChange st.changes filePath

/-- All accepted changes, in record order (function getAcceptedChanges). -/
def getAcceptedChanges (st : StagingState) : List StagedChange :=
  (st.changes.map (fun kv => kv.2)).filter
    (fun c => decide (c.status = ChangeStatus.accepted))

/-- All rejected changes, in record order (function getRejectedChanges). -/
def getRejectedChanges (st : StagingState) : List StagedChange :=
  (st.changes.map (fun kv => kv.2)).filter
    (fun c => decide (c.status = ChangeStatus.rejected))

/-! ## Command queue -/

/-- Whether a command with the same type and the same normalized text is
already queued (function isDuplicateCommand). -/
def isDuplicateCommand (existing : List PendingCommand)
    (newCommand : CommandInput) : Bool :=
  existing.any (fun e =>
    e.type = newCommand.type &&
      normalizeCommandText e.command == normalizeCommandText newCommand.command)

/-- Queue a shell or start command (function queueCommand): rejected as a
duplicate, or appended at the end of the queue. -/
def queueCommand (input : CommandInput) (id : String) (now : Nat)
    (st : StagingState) : Option PendingCommand × StagingState :=
  if isDuplicateCommand st.pendingCommands input then (none, st)
  else
    let pc : PendingCommand :=
      { id := id
        type := input.type
        command := input.command
        timestamp := now
        artifactId := input.artifactId
        title := input.title }
    (some pc, { st with pendingCommands := st.pendingCommands ++ [pc] })

/-! ## Reconciler (WebContainer filesystem host) -/

/-- One filesystem invocation on the external host, recorded for the trace. -/
inductive HostCall
  | writeFile (path content : String)
  | rm (path : String)
  | mkdir (path : String)
deriving DecidableEq, Repr

/-- The WebContainer fs interface: each operation either succeeds or throws
(error case carrying the stringified message). -/
structure Host where
  writeFile : String → String → Except String Unit
  rm : String → Except String Unit
  mkdir : String → Except String Unit

/-- The host calls made for one accepted change: rm for a delete; otherwise
mkdir of the parent directory (when non-empty; its failure is swallowed by
the inner try) followed by writeFile of the new content. -/
def acceptCallsFor (c : StagedChange) : List HostCall :=
  let rel := stripRoot c.filePath
  if c.type = ChangeType.delete then [HostCall.rm rel]
  else
    (if dirNameOf rel ≠ "" then [HostCall.mkdir (dirNameOf rel)] else []) ++
      [HostCall.writeFile rel c.newContent]

/-- The outcome deciding success of one accepted change: the rm result for a
delete, the writeFile result otherwise (a mkdir failure is swallowed and can
never fail the entry). -/
def acceptOutcome (h : Host) (c : StagedChange) : Except String Unit :=
  let rel := stripRoot c.filePath
  if c.type = ChangeType.delete then h.rm rel
  else h.writeFile rel c.newContent

/-- The host calls made for one rejected change: none for a create (never
materialized) and none when the original content is null; for a delete with
original content, mkdir of the parent directory (when non-empty) followed by
writeFile of the original content; for a modify with original content,
writeFile of the original content. -/
def revertCallsFor (c : StagedChange) : List HostCall :=
  let rel := stripRoot c.filePath
  match c.type, c.originalContent with
  | ChangeType.create, _ => []
  | ChangeType.delete, some o =>
    (if dirNameOf rel ≠ "" then [HostCall.mkdir (dirNameOf rel)] else []) ++
      [HostCall.writeFile rel o]
  | ChangeType.modify, some o => [HostCall.writeFile rel o]
  | ChangeType.delete, none => []
  | ChangeType.modify, none => []

/-- The outcome deciding success of one rejected change: the writeFile
result when original content is restored, success otherwise (no fallible
call is made). -/
def revertOutcome (h : Host) (c : StagedChange) : Except String Unit :=
  let rel := stripRoot c.filePath
  match c.type, c.originalContent with
  | ChangeType.create, _ => Except.ok ()
  | ChangeType.delete, some o => h.writeFile rel o
  | ChangeType.modify, some o => h.writeFile rel o
  | ChangeType.delete, none => Except.ok ()
  | ChangeType.modify, none => Except.ok ()

/-- Result of a batch reconciliation pass: the file paths of the entries
that succeeded (the applied list of applyAcceptedChanges, the reverted list
of applyRejectedChanges), the path and stringified error of the entries
that failed, the trace of host calls, and the store state after the pass. -/
structure ReconcileResult where
  succeeded : List String
  failed : List (String × String)
  calls : List HostCall
  state : StagingState
deriving Repr

/-- The shared per-entry loop of applyAcceptedChanges and
applyRejectedChanges: every host failure for an entry is caught there; on
success the path is recorded and the entry removed from the store, on
failure the path and message are recorded and the entry is left in place. -/
def reconcileLoop (outcome : StagedChange → Except String Unit)
    (callsFor : StagedChange → List HostCall) :
    List StagedChange → StagingState → ReconcileResult
  | [], st => { succeeded := [], failed := [], calls := [], state := st }
  | c :: rest, st =>
    match outcome c with
    | Except.ok _ =>
      let r := reconcileLoop outcome callsFor rest (removeChange c.filePath st)
      { succeeded := c.filePath :: r.succeeded
        failed := r.failed
        calls := callsFor c ++ r.calls
        state := r.state }
    | Except.error e =>
      let r := reconcileLoop outcome callsFor rest st
      { succeeded := r.succeeded
        failed := (c.filePath, e) :: r.failed
        calls := callsFor c ++ r.calls
        state := r.state }

/-- Apply all accepted changes to the host filesystem (function
applyAcceptedChanges): iterate over the snapshot of accepted entries taken
before the loop. -/
def applyAcceptedChanges (h : Host) (st : StagingState) : ReconcileResult :=
  reconcileLoop (acceptOutcome h) acceptCallsFor (getAcceptedChanges st) st

/-- Revert all rejected changes on the host filesystem (function
applyRejectedChanges): iterate over the snapshot of rejected entries taken
before the loop. -/
def applyRejectedChanges (h : Host) (st : StagingState) : ReconcileResult :=
  reconcileLoop (revertOutcome h) revertCallsFor (getRejectedChanges st) st

/-- Result of the single-entry revert (function applyRejectedChange):
success flag and optional error message, plus the host call trace and the
resulting store state. -/
structure SingleRevertResult where
  success : Bool
  error : Option String
  calls : List HostCall
  state : StagingState
deriving Repr

/-- Revert a single rejected change (function applyRejectedChange): error
results for a missing or non-rejected target; otherwise the revert calls for
the entry, with removal from the store only on success. -/
def applyRejectedChange (filePath : String) (h : Host) (st : StagingState) :
    SingleRevertResult :=
  match getChangeForFile filePath st with
  | none =>
    { success := false, error := some "Change not found", calls := [], state := st }
  | some c =>
    if c.status ≠ ChangeStatus.rejected then
      { success := false, error := some "Change is not rejected", calls := [],
        state := st }
    else
      match revertOutcome h c with
      | Except.ok _ =>
        { success := true, error := none, calls := revertCallsFor c,
          state := removeChange filePath st }
      | Except.error e =>
        { success := false, error := some e, calls := revertCallsFor c,
          state := st }

/-! ## Invariants -/

/-- The uniqueness invariant: the changes record holds at most one entry per
file path (its keys are pairwise distinct). -/
def KeysNodup (st : StagingState) : Prop :=
  (st.changes.map Prod.fst).Nodup

/-- The auto-approval value as the specification words it: false for a
delete while delete confirmation is required, otherwise the auto-approve
switch conjoined with the pattern matcher verdict. Stated for comparison
with the computation inside stageChange. -/
def autoApprovedSpec (s : StagingSettings) (input : ChangeInput) : Bool :=
  if input.type = ChangeType.delete ∧ s.requireDeleteConfirmation = true then false
  else s.autoApproveEnabled &&
    matchesAutoApprovePattern input.filePath s.autoApprovePatterns

/-! ## Concrete fixtures for witnesses -/

/-- Settings with auto-approval off, used by the example states. -/
def plainSettings : StagingSettings :=
  { isEnabled := true
    autoApproveEnabled := false
    autoApprovePatterns := []
    requireDeleteConfirmation := true
    showInlineDiffPreview := true
    autoCheckpointOnAccept := true }

/-- Build an example store state around a given changes record. -/
def mkState (cs : List (String × StagedChange)) : StagingState :=
  { changes := cs
    selectedChangePath := none
    isDiffModalOpen := false
    settings := plainSettings
    pendingCommands := [] }

/-- A host on which every operation succeeds. -/
def okHost : Host :=
  { writeFile := fun _ _ => Except.ok ()
    rm := fun _ => Except.ok ()
    mkdir := fun _ => Except.ok () }

/-- A host on which every write and every delete throws. -/
def failHost : Host :=
  { writeFile := fun _ _ => Except.error "EACCES"
    rm := fun _ => Except.error "EACCES"
    mkdir := fun _ => Except.ok () }

/-- An example pending modification of a.txt. -/
def exPending : StagedChange :=
  { id := "p1", filePath := "a.txt", type := ChangeType.modify,
    originalContent := some "A", newContent := "B", timestamp := 0,
    status := ChangeStatus.pending, actionId := "act1", autoApproved := false,
    description := none }

/-- An example accepted modification of b.txt. -/
def exAccepted : StagedChange :=
  { exPending with
    id := "p2"
    filePath := "b.txt"
    status := ChangeStatus.accepted }

/-- An example rejected deletion of config.json with captured original
content. -/
def exRejectedConfig : StagedChange :=
  { id := "p3", filePath := "config.json", type := ChangeType.delete,
    originalContent := some "\x7b\"a\":1\x7d", newContent := "", timestamp := 0,
    status := ChangeStatus.rejected, actionId := "act1", autoApproved := false,
    description := none }

/-- An example rejected modification with null original content. -/
def exRejectedNull : StagedChange :=
  { exPending with
    id := "p4"
    filePath := "d.txt"
    status := ChangeStatus.rejected
    originalContent := none }

/-- State holding the pending example change. -/
def exPendingState : StagingState := mkState [("a.txt", exPending)]

/-- State holding the accepted example change. -/
def exAcceptedState : StagingState := mkState [("b.txt", exAccepted)]

/-- State holding the rejected config.json deletion. -/
def exRejectState : StagingState := mkState [("config.json", exRejectedConfig)]

/-- State holding the rejected change with null original content. -/
def exNullState : StagingState := mkState [("d.txt", exRejectedNull)]

/-- State holding one accepted and one rejected entry. -/
def exMixedState : StagingState :=
  mkState [("b.txt", exAccepted), ("config.json", exRejectedConfig)]

/-- Settings of the delete-confirmation scenario: auto-approve on with a log
pattern, delete confirmation required. -/
def logDeleteSettings : StagingSettings :=
  { isEnabled := true
    autoApproveEnabled := true
    autoApprovePatterns := ["*.log"]
    requireDeleteConfirmation := true
    showInlineDiffPreview := true
    autoCheckpointOnAccept := true }

/-- Empty store carrying the delete-confirmation scenario settings. -/
def logDeleteState : StagingState :=
  { mkState [] with settings := logDeleteSettings }

/-- The staged deletion of debug.log from the scenario. -/
def logDeleteInput : ChangeInput :=
  { filePath := "debug.log", type := ChangeType.delete,
    originalContent := some "x", newContent := "", actionId := "act1",
    description := none }

/-- Empty store with staging disabled. -/
def disabledState : StagingState :=
  { mkState [] with settings := { plainSettings with isEnabled := false } }

/-- An example restaging input for the path a.txt. -/
def exInputA : ChangeInput :=
  { filePath := "a.txt", type := ChangeType.modify,
    originalContent := some "A", newContent := "C", actionId := "act2",
    description := none }

/-- The shell command of the duplicate-suppression scenario. -/
def npmInstall : CommandInput :=
  { type := CommandType.shell, command := "npm install",
    artifactId := "art1", title := none }

/-! ## Claim C8: staging disabled is a complete no-op -/

/-- C8: for every input change, when settings.isEnabled is false,
stageChange returns none and the store state is completely unchanged. -/
theorem stageChange_disabled_noop (input : ChangeInput) (id : String)
    (now : Nat) (st : StagingState) (h : st.settings.isEnabled = false) :
    stageChange input id now st = (none, st) := by
  simp [stageChange, h]

/-- Witness for C8 at a concrete disabled store. -/
theorem stageChange_disabled_noop_witness :
    stageChange exInputA "id9" 7 disabledState = (none, disabledState) :=
  stageChange_disabled_noop exInputA "id9" 7 disabledState (by decide)

/-! ## Claim C6: the auto-approval rule of stageChange -/

/-- C6: when staging is enabled, the staged record carries autoApproved
equal to the specified rule (false for a delete under required delete
confirmation, otherwise the auto-approve switch conjoined with the pattern
match) and its initial status is accepted exactly when autoApproved holds;
in particular a staged delete of debug.log under auto-approve on, pattern
list star-dot-log and required delete confirmation comes out pending with
autoApproved false. -/
theorem stageChange_autoApprove_rule :
    (∀ (input : ChangeInput) (id : String) (now : Nat) (st : StagingState),
       st.settings.isEnabled = true →
       (stageChange input id now st).1.map
           (fun c => (c.autoApproved, c.status)) =
         some (autoApprovedSpec st.settings input,
           if autoApprovedSpec st.settings input then ChangeStatus.accepted
           else ChangeStatus.pending))
  ∧ (stageChange logDeleteInput "id1" 3 logDeleteState).1.map
        (fun c => (c.autoApproved, c.status)) =
      some (false, ChangeStatus.pending) := by
  constructor
  · intro input id now st he
    have hru : computeAutoApproved st.settings input.filePath input.type =
        autoApprovedSpec st.settings input := by
      unfold computeAutoApproved autoApprovedSpec
      by_cases h1 : st.settings.autoApproveEnabled = true
      · by_cases h2 : input.type = ChangeType.delete ∧
            st.settings.requireDeleteConfirmation = true
        · simp [h1, h2]
        · simp [h1, h2]
      · have h1f : st.settings.autoApproveEnabled = false := by
          simpa using h1
        by_cases h2 : input.type = ChangeType.delete ∧
            st.settings.requireDeleteConfirmation = true
        · simp [h1f, h2]
        · simp [h1f, h2]
    simp [stageChange, he, hru]
  · decide

/-- Witness for C6 applying the universal part at the scenario store. -/
theorem stageChange_autoApprove_rule_witness :
    (stageChange logDeleteInput "id2" 4 logDeleteState).1.map
        (fun c => (c.autoApproved, c.status)) =
      some (autoApprovedSpec logDeleteState.settings logDeleteInput,
        if autoApprovedSpec logDeleteState.settings logDeleteInput then
          ChangeStatus.accepted
        else ChangeStatus.pending) :=
  stageChange_autoApprove_rule.1 logDeleteInput "id2" 4 logDeleteState
    (by decide)

/-! ## Claim C9: command queue duplicate suppression -/

/-- C9: queueCommand rejects an insertion exactly when an existing entry of
the same type has the same normalized text, leaving the queue unchanged, and
otherwise appends at the end; queuing the same command twice in a row always
leaves the second call rejected, and the npm install scenario yields a queue
of length one. -/
theorem queueCommand_dedup :
    (∀ (input : CommandInput) id1 ts1 id2 ts2 (st : StagingState),
       queueCommand input id2 ts2 (queueCommand input id1 ts1 st).2 =
         (none, (queueCommand input id1 ts1 st).2))
  ∧ (∀ (input : CommandInput) id ts (st : StagingState),
       isDuplicateCommand st.pendingCommands input = true →
       queueCommand input id ts st = (none, st))
  ∧ (∀ (input : CommandInput) id ts (st : StagingState),
       isDuplicateCommand st.pendingCommands input = false →
       (queueCommand input id ts st).2.pendingCommands =
         st.pendingCommands ++
           [{ id := id, type := input.type, command := input.command,
              timestamp := ts, artifactId := input.artifactId,
              title := input.title }])
  ∧ (queueCommand npmInstall "i2" 1
        (queueCommand npmInstall "i1" 0 (mkState [])).2).2.pendingCommands.length
      = 1 := by
  refine ⟨?_, ?_, ?_, ?_⟩
  · intro input id1 ts1 id2 ts2 st
    by_cases hd : isDuplicateCommand st.pendingCommands input = true
    · simp [queueCommand, hd]
    · have hdf : isDuplicateCommand st.pendingCommands input = false := by
        simpa using hd
      have h1 : (queueCommand input id1 ts1 st).2.pendingCommands =
          st.pendingCommands ++
            [{ id := id1, type := input.type, command := input.command,
               timestamp := ts1, artifactId := input.artifactId,
               title := input.title }] := by
        simp [queueCommand, hdf]
      have hdup : isDuplicateCommand
          (queueCommand input id1 ts1 st).2.pendingCommands input = true := by
        rw [h1]
        simp [isDuplicateCommand, List.any_append]
      generalize (queueCommand input id1 ts1 st).2 = st1 at hdup ⊢
      simp [queueCommand, hdup]
  · intro input id ts st hd
    simp [queueCommand, hd]
  · intro input id ts st hd
    simp [queueCommand, hd]
  · decide

/-- Witness for C9 applying the universal parts at a concrete queue. -/
theorem queueCommand_dedup_witness :
    queueCommand npmInstall "i4" 3
        (queueCommand npmInstall "i3" 2 (mkState [])).2 =
      (none, (queueCommand npmInstall "i3" 2 (mkState [])).2) ∧
    (queueCommand npmInstall "i3" 2 (mkState [])).2.pendingCommands =
      (mkState []).pendingCommands ++
        [{ id := "i3", type := npmInstall.type, command := npmInstall.command,
           timestamp := 2, artifactId := npmInstall.artifactId,
           title := npmInstall.title }] :=
  ⟨queueCommand_dedup.1 npmInstall "i3" 2 "i4" 3 (mkState []),
   queueCommand_dedup.2.2.1 npmInstall "i3" 2 (mkState []) (by decide)⟩

/-! ## Claim C7: pattern matcher semantics -/

/-- C7: the matcher normalizes backslashes and checks each pattern: a
two-part double-star split matches by the prefix and suffix of the
normalized path, a split into three or more parts never matches, a
single-star pattern is tested as the compiled regex against the full path
and the basename, a wildcard-free pattern matches by exact equality with the
full path or the basename, and the matcher returns false exactly when no
pattern matches; with the four concrete examples of the specification. -/
theorem matchesAutoApprovePattern_semantics :
    matchesAutoApprovePattern "node_modules/foo/bar.js" ["node_modules/**"] = true
  ∧ matchesAutoApprovePattern "src/a.lock" ["*.lock"] = true
  ∧ matchesAutoApprovePattern "src/app.ts" ["*.lock"] = false
  ∧ matchesAutoApprovePattern "pnpm-lock.yaml" ["pnpm-lock.yaml"] = true
  ∧ (∀ (path : String) (patterns : List String),
       matchesAutoApprovePattern path patterns = false ↔
         ∀ p ∈ patterns, matchOnePattern (normalizeSlashes path) p = false)
  ∧ (∀ (path pattern a b : String), splitOnStr pattern "**" = [a, b] →
       matchOnePattern path pattern = (strStarts path a && strEnds path b))
  ∧ (∀ (path pattern a b c : String) (rest : List String),
       splitOnStr pattern "**" = a :: b :: c :: rest →
       matchOnePattern path pattern = false)
  ∧ (∀ (path pattern p0 : String), splitOnStr pattern "**" = [p0] →
       pattern.data.contains '*' = true →
       matchOnePattern path pattern =
         (reMatch pattern.data path.data ||
           reMatch pattern.data (lastSeg path).data))
  ∧ (∀ (path pattern p0 : String), splitOnStr pattern "**" = [p0] →
       pattern.data.contains '*' = false →
       matchOnePattern path pattern =
         (path == pattern || lastSeg path == pattern)) := by
  refine ⟨by decide, by decide, by decide, by decide, ?_, ?_, ?_, ?_, ?_⟩
  · intro path patterns
    simp [matchesAutoApprovePattern, List.any_eq_true]
  · intro path pattern a b h
    simp [matchOnePattern, h]
  · intro path pattern a b c rest h
    simp [matchOnePattern, h]
  · intro path pattern p0 h hc
    simp only [List.contains_eq_any_beq, List.any_eq_true, beq_iff_eq] at hc
    obtain ⟨x, hx, hxe⟩ := hc
    subst hxe
    simp [matchOnePattern, h, hx]
  · intro path pattern p0 h hc
    simp only [List.contains_eq_any_beq, List.any_eq_false, beq_iff_eq] at hc
    have hnm : '*' ∉ pattern.data := by
      intro hmem
      exact hc '*' hmem rfl
    simp [matchOnePattern, h, hnm]

/-- Witness for C7 applying the universal parts at concrete patterns. -/
theorem matchesAutoApprovePattern_semantics_witness :
    (matchesAutoApprovePattern "src/app.ts" ["*.lock"] = false ↔
       ∀ p ∈ ["*.lock"],
         matchOnePattern (normalizeSlashes "src/app.ts") p = false)
  ∧ matchOnePattern "node_modules/x.js" "node_modules/**" =
      (strStarts "node_modules/x.js" "node_modules/" &&
        strEnds "node_modules/x.js" "")
  ∧ matchOnePattern "x" "a**b**c" = false
  ∧ matchOnePattern "src/a.lock" "*.lock" =
      (reMatch "*.lock".data "src/a.lock".data ||
        reMatch "*.lock".data (lastSeg "src/a.lock").data)
  ∧ matchOnePattern "pnpm-lock.yaml" "pnpm-lock.yaml" =
      (("pnpm-lock.yaml" : String) == "pnpm-lock.yaml" ||
        lastSeg "pnpm-lock.yaml" == "pnpm-lock.yaml") :=
  ⟨matchesAutoApprovePattern_semantics.2.2.2.2.1 "src/app.ts" ["*.lock"],
   matchesAutoApprovePattern_semantics.2.2.2.2.2.1 "node_modules/x.js"
     "node_modules/**" "node_modules/" "" (by decide),
   matchesAutoApprovePattern_semantics.2.2.2.2.2.2.1 "x" "a**b**c"
     "a" "b" "c" [] (by decide),
   matchesAutoApprovePattern_semantics.2.2.2.2.2.2.2.1 "src/a.lock" "*.lock"
     "*.lock" (by decide) (by decide),
   matchesAutoApprovePattern_semantics.2.2.2.2.2.2.2.2 "pnpm-lock.yaml"
     "pnpm-lock.yaml" "pnpm-lock.yaml" (by decide) (by decide)⟩


/-! ## Claim C1: at most one entry per path; restage replaces -/

/-- The keys of the record after an assignment: unchanged when the key was
present, the key appended otherwise. -/
theorem upsert_keys (l : List (String × StagedChange)) (k : String)
    (v : StagedChange) :
    (upsert l k v).map Prod.fst =
      if l.any (fun kv => kv.1 == k) then l.map Prod.fst
      else l.map Prod.fst ++ [k] := by
  unfold upsert
  split
  · rw [List.map_map]
    apply List.map_congr_left
    intro kv _
    simp only [Function.comp]
    by_cases h : (kv.1 == k) = true
    · rw [if_pos h]
    · rw [if_neg h]
  · simp

/-- Assignment preserves distinctness of the record keys. -/
theorem upsert_keysNodup (l : List (String × StagedChange)) (k : String)
    (v : StagedChange) (h : (l.map Prod.fst).Nodup) :
    ((upsert l k v).map Prod.fst).Nodup := by
  rw [upsert_keys]
  split
  · exact h
  · rename_i hany
    have hk : k ∉ l.map Prod.fst := by
      intro hmem
      apply hany
      simp only [List.mem_map] at hmem
      obtain ⟨kv, hkv, hfst⟩ := hmem
      exact List.any_eq_true.mpr ⟨kv, hkv, by simp [hfst]⟩
    simp [List.nodup_append, h, hk]

/-- One stageChange call preserves the uniqueness invariant. -/
theorem stageChange_keysNodup (input : ChangeInput) (id : String) (now : Nat)
    (st : StagingState) (h : KeysNodup st) :
    KeysNodup (stageChange input id now st).2 := by
  unfold stageChange
  by_cases he : st.settings.isEnabled <;> simp [he]
  · exact upsert_keysNodup _ _ _ h
  · exact h

/-- Skipping a record entry whose key differs from the lookup key. -/
theorem lookupChange_cons_ne (kv : String × StagedChange)
    (l : List (String × StagedChange)) (k : String)
    (h : (kv.1 == k) = false) :
    lookupChange (kv :: l) k = lookupChange l k := by
  unfold lookupChange
  rw [List.find?_cons_of_neg]
  simp [h]

/-- Assigning at a key not matched by the head commutes with the cons. -/
theorem upsert_cons_ne (kv : String × StagedChange)
    (rest : List (String × StagedChange)) (k : String) (v : StagedChange)
    (h : (kv.1 == k) = false) :
    upsert (kv :: rest) k v = kv :: upsert rest k v := by
  unfold upsert
  by_cases h2 : (rest.any fun x => x.1 == k) = true
  · rw [if_pos, if_pos h2]
    · rw [List.map_cons, if_neg (by simp [h])]
    · simp [List.any_cons, h2]
  · rw [if_neg, if_neg h2]
    · simp
    · simp only [List.any_cons, Bool.or_eq_true]
      rintro (hh | hh)
      · rw [h] at hh
        exact Bool.noConfusion hh
      · exact h2 hh

/-- The value looked up at an assigned key is the assigned value. -/
theorem lookup_upsert (l : List (String × StagedChange)) (k : String)
    (v : StagedChange) : lookupChange (upsert l k v) k = some v := by
  induction l with
  | nil => simp [upsert, lookupChange]
  | cons kv rest ih =>
    by_cases h : (kv.1 == k) = true
    · have hany : ((kv :: rest).any fun x => x.1 == k) = true := by
        simp [List.any_cons, h]
      unfold upsert
      rw [if_pos hany]
      rw [List.map_cons, if_pos h]
      unfold lookupChange
      rw [List.find?_cons_of_pos]
      · rfl
      · exact h
    · have hf : (kv.1 == k) = false := by simpa using h
      rw [upsert_cons_ne kv rest k v hf]
      rw [lookupChange_cons_ne kv _ k hf]
      exact ih

/-- C1: any sequence of stageChange calls preserves the at-most-one-entry
per path invariant (intermediate states of a sequence are themselves results
of sequences, by the append law); under the invariant every path key occurs
at most once; and staging onto a path that already has an entry of any
status keeps the record length, stores exactly the new record at that path
as its single entry, and leaves every other entry untouched. -/
theorem stageChange_unique_per_path :
    (∀ (steps : List (ChangeInput × String × Nat)) (st : StagingState),
       KeysNodup st → KeysNodup (stageMany steps st))
  ∧ (∀ (s1 s2 : List (ChangeInput × String × Nat)) (st : StagingState),
       stageMany (s1 ++ s2) st = stageMany s2 (stageMany s1 st))
  ∧ (∀ (st : StagingState) (k : String), KeysNodup st →
       st.changes.countP (fun kv => kv.1 == k) ≤ 1)
  ∧ (∀ (input : ChangeInput) (id : String) (now : Nat) (st : StagingState)
       (c : StagedChange) (st2 : StagingState), KeysNodup st →
       lookupChange st.changes input.filePath ≠ none →
       stageChange input id now st = (some c, st2) →
       (st2.changes.length = st.changes.length ∧
        lookupChange st2.changes input.filePath = some c ∧
        st2.changes.countP (fun kv => kv.1 == input.filePath) = 1 ∧
        ∀ kv ∈ st.changes, kv.1 ≠ input.filePath → kv ∈ st2.changes)) := by
  refine ⟨?_, ?_, ?_, ?_⟩
  · intro steps
    induction steps with
    | nil => intro st h; simpa [stageMany] using h
    | cons s rest ih =>
      intro st h
      have h1 : KeysNodup (stageChange s.1 s.2.1 s.2.2 st).2 :=
        stageChange_keysNodup s.1 s.2.1 s.2.2 st h
      simpa [stageMany] using ih _ h1
  · intro s1 s2 st
    simp [stageMany, List.foldl_append]
  · intro st k h
    have hc : st.changes.countP (fun kv => kv.1 == k) =
        (st.changes.map Prod.fst).countP (fun x => x == k) := by
      rw [List.countP_map]
      rfl
    rw [hc]
    exact List.nodup_iff_count_le_one.mp h k
  · intro input id now st c st2 hnd hlk hst
    have he : st.settings.isEnabled = true := by
      by_contra hne
      have hfalse : st.settings.isEnabled = false := by simpa using hne
      simp [stageChange, hfalse] at hst
    have hany : (st.changes.any fun kv => kv.1 == input.filePath) = true := by
      unfold lookupChange at hlk
      match hf : st.changes.find? (fun kv => kv.1 == input.filePath) with
      | none => rw [hf] at hlk; simp at hlk
      | some kv =>
        have hmem := List.mem_of_find?_eq_some hf
        have hp := List.find?_some hf
        exact List.any_eq_true.mpr ⟨kv, hmem, hp⟩
    have hch : st2.changes = upsert st.changes input.filePath c := by
      rw [stageChange, if_neg (by simp [he])] at hst
      have h2 := congrArg Prod.snd hst
      have h1 := congrArg Prod.fst hst
      simp only at h1 h2
      rw [← h2]
      have hcv := Option.some.inj h1
      rw [← hcv]
    refine ⟨?_, ?_, ?_, ?_⟩
    · rw [hch]
      unfold upsert
      rw [if_pos hany]
      simp
    · rw [hch]
      exact lookup_upsert _ _ _
    · rw [hch]
      have hkeys : ((upsert st.changes input.filePath c).map Prod.fst) =
          st.changes.map Prod.fst := by
        rw [upsert_keys, if_pos hany]
      have hcount : (upsert st.changes input.filePath c).countP
            (fun kv => kv.1 == input.filePath) =
          ((upsert st.changes input.filePath c).map Prod.fst).countP
            (fun x => x == input.filePath) := by
        rw [List.countP_map]
        rfl
      rw [hcount, hkeys]
      have hle : (st.changes.map Prod.fst).count input.filePath ≤ 1 :=
        List.nodup_iff_count_le_one.mp hnd input.filePath
      have hmem : input.filePath ∈ st.changes.map Prod.fst := by
        obtain ⟨kv, hkv, hp⟩ := List.any_eq_true.mp hany
        exact List.mem_map.mpr ⟨kv, hkv, by simpa using hp⟩
      have hge : 1 ≤ (st.changes.map Prod.fst).count input.filePath :=
        List.count_pos_iff.mpr hmem
      exact Nat.le_antisymm hle hge
    · intro kv hkv hne
      rw [hch]
      unfold upsert
      rw [if_pos hany]
      exact List.mem_map.mpr ⟨kv, hkv, by simp [hne]⟩

/-- Witness for C1 at a concrete restage of an existing path. -/
theorem stageChange_unique_per_path_witness :
    ((stageChange exInputA "id2" 1 exPendingState).2.changes.length =
        exPendingState.changes.length ∧
      lookupChange (stageChange exInputA "id2" 1 exPendingState).2.changes
          exInputA.filePath =
        some { id := "id2", filePath := "a.txt", type := ChangeType.modify,
               originalContent := some "A", newContent := "C", timestamp := 1,
               status := ChangeStatus.pending, actionId := "act2",
               autoApproved := false, description := none } ∧
      (stageChange exInputA "id2" 1 exPendingState).2.changes.countP
          (fun kv => kv.1 == exInputA.filePath) = 1 ∧
      ∀ kv ∈ exPendingState.changes, kv.1 ≠ exInputA.filePath →
        kv ∈ (stageChange exInputA "id2" 1 exPendingState).2.changes) ∧
    KeysNodup (stageMany [(exInputA, "id3", 2)] exPendingState) :=
  ⟨stageChange_unique_per_path.2.2.2 exInputA "id2" 1 exPendingState
      { id := "id2", filePath := "a.txt", type := ChangeType.modify,
        originalContent := some "A", newContent := "C", timestamp := 1,
        status := ChangeStatus.pending, actionId := "act2",
        autoApproved := false, description := none }
      (stageChange exInputA "id2" 1 exPendingState).2
      (by show (exPendingState.changes.map Prod.fst).Nodup; decide)
      (by decide) (by decide),
   stageChange_unique_per_path.1 [(exInputA, "id3", 2)] exPendingState
     (by show (exPendingState.changes.map Prod.fst).Nodup; decide)⟩

/-! ## Claim C2: status transitions and non-pending no-ops -/

/-- A target resolved by path or id is an entry of the record. -/
theorem findByPathOrId_mem (changes : List (String × StagedChange))
    (key : String) (kv : String × StagedChange)
    (h : findByPathOrId changes key = some kv) : kv ∈ changes := by
  unfold findByPathOrId at h
  match hf : changes.find? (fun x => x.1 == key) with
  | some kv2 =>
    rw [hf] at h
    exact Option.some.inj h ▸ List.mem_of_find?_eq_some hf
  | none =>
    rw [hf] at h
    exact List.mem_of_find?_eq_some h

/-- C2: acceptChange and rejectChange on a missing target or one whose
status is not pending return none and leave the store completely unchanged;
and every entry of the store after either call is either an untouched
original entry or an originally pending entry moved to accepted
(respectively rejected), so status never moves back to pending. -/
theorem acceptReject_status_transitions :
    (∀ (key : String) (st : StagingState),
       (∀ kv, findByPathOrId st.changes key = some kv →
          kv.2.status ≠ ChangeStatus.pending) →
       acceptChange key st = (none, st) ∧ rejectChange key st = (none, st))
  ∧ (∀ (key : String) (st : StagingState) (kv : String × StagedChange),
       kv ∈ (acceptChange key st).2.changes →
       kv ∈ st.changes ∨
         ∃ c0, (kv.1, c0) ∈ st.changes ∧ c0.status = ChangeStatus.pending ∧
           kv.2 = { c0 with status := ChangeStatus.accepted })
  ∧ (∀ (key : String) (st : StagingState) (kv : String × StagedChange),
       kv ∈ (rejectChange key st).2.changes →
       kv ∈ st.changes ∨
         ∃ c0, (kv.1, c0) ∈ st.changes ∧ c0.status = ChangeStatus.pending ∧
           kv.2 = { c0 with status := ChangeStatus.rejected }) := by
  refine ⟨?_, ?_, ?_⟩
  · intro key st h
    constructor
    · unfold acceptChange
      match hf : findByPathOrId st.changes key with
      | none => rfl
      | some (changePath, c) =>
        dsimp only
        rw [if_pos (h (changePath, c) hf)]
    · unfold rejectChange
      match hf : findByPathOrId st.changes key with
      | none => rfl
      | some (changePath, c) =>
        dsimp only
        rw [if_pos (h (changePath, c) hf)]
  · intro key st kv hkv
    unfold acceptChange at hkv
    match hf : findByPathOrId st.changes key with
    | none =>
      rw [hf] at hkv
      exact Or.inl hkv
    | some (changePath, c) =>
      rw [hf] at hkv
      dsimp only at hkv
      by_cases hp : c.status = ChangeStatus.pending
      · rw [if_neg (by simp [hp])] at hkv
        dsimp only at hkv
        have hmem := findByPathOrId_mem st.changes key _ hf
        have hany : (st.changes.any fun x => x.1 == changePath) = true :=
          List.any_eq_true.mpr ⟨(changePath, c), hmem, by simp⟩
        rw [upsert, if_pos hany] at hkv
        obtain ⟨kv0, hkv0, hfkv⟩ := List.mem_map.mp hkv
        by_cases hk : (kv0.1 == changePath) = true
        · rw [if_pos hk] at hfkv
          refine Or.inr ⟨c, ?_, hp, ?_⟩
          · have : kv.1 = kv0.1 := by rw [← hfkv]
            rw [this, (by simpa using hk : kv0.1 = changePath)]
            exact hmem
          · rw [← hfkv]
        · rw [if_neg hk] at hfkv
          exact Or.inl (hfkv ▸ hkv0)
      · rw [if_pos hp] at hkv
        exact Or.inl hkv
  · intro key st kv hkv
    unfold rejectChange at hkv
    match hf : findByPathOrId st.changes key with
    | none =>
      rw [hf] at hkv
      exact Or.inl hkv
    | some (changePath, c) =>
      rw [hf] at hkv
      dsimp only at hkv
      by_cases hp : c.status = ChangeStatus.pending
      · rw [if_neg (by simp [hp])] at hkv
        dsimp only at hkv
        have hmem := findByPathOrId_mem st.changes key _ hf
        have hany : (st.changes.any fun x => x.1 == changePath) = true :=
          List.any_eq_true.mpr ⟨(changePath, c), hmem, by simp⟩
        rw [upsert, if_pos hany] at hkv
        obtain ⟨kv0, hkv0, hfkv⟩ := List.mem_map.mp hkv
        by_cases hk : (kv0.1 == changePath) = true
        · rw [if_pos hk] at hfkv
          refine Or.inr ⟨c, ?_, hp, ?_⟩
          · have : kv.1 = kv0.1 := by rw [← hfkv]
            rw [this, (by simpa using hk : kv0.1 = changePath)]
            exact hmem
          · rw [← hfkv]
        · rw [if_neg hk] at hfkv
          exact Or.inl (hfkv ▸ hkv0)
      · rw [if_pos hp] at hkv
        exact Or.inl hkv

/-- Witness for C2: the no-op parts at an accepted-only store and a missing
key, the transition part at a store holding one pending entry. -/
theorem acceptReject_status_transitions_witness :
    (acceptChange "b.txt" exAcceptedState = (none, exAcceptedState) ∧
     rejectChange "b.txt" exAcceptedState = (none, exAcceptedState)) ∧
    (acceptChange "missing" exPendingState = (none, exPendingState) ∧
     rejectChange "missing" exPendingState = (none, exPendingState)) ∧
    (("a.txt", { exPending with status := ChangeStatus.accepted }) ∈
        exPendingState.changes ∨
      ∃ c0, (("a.txt", { exPending with status := ChangeStatus.accepted }).1,
          c0) ∈ exPendingState.changes ∧
        c0.status = ChangeStatus.pending ∧
        ("a.txt",
          { exPending with status := ChangeStatus.accepted }).2 =
          { c0 with status := ChangeStatus.accepted }) :=
  ⟨acceptReject_status_transitions.1 "b.txt" exAcceptedState
     (fun kv h => by
       have he : findByPathOrId exAcceptedState.changes "b.txt" =
           some ("b.txt", exAccepted) := by decide
       rw [he] at h
       rw [← Option.some.inj h]
       decide),
   acceptReject_status_transitions.1 "missing" exPendingState
     (fun kv h => by
       have he : findByPathOrId exPendingState.changes "missing" = none := by
         decide
       rw [he] at h
       exact Option.noConfusion h),
   acceptReject_status_transitions.2.1 "a.txt" exPendingState
     ("a.txt", { exPending with status := ChangeStatus.accepted })
     (by decide)⟩

/-! ## Reconciler loop characterizations -/

/-- The changes record after a removal: every entry at the removed key is
dropped, all others kept. -/
theorem removeChange_changes (p : String) (st : StagingState) :
    (removeChange p st).changes =
      st.changes.filter (fun kv => decide (kv.1 ≠ p)) := by
  unfold removeChange
  match hf : lookupChange st.changes p with
  | some c => rfl
  | none =>
    dsimp only
    rw [eq_comm]
    apply List.filter_eq_self.mpr
    intro kv hkv
    unfold lookupChange at hf
    rw [Option.map_eq_none'] at hf
    have := List.find?_eq_none.mp hf kv hkv
    simp only [beq_iff_eq] at this
    simpa using this

/-- The success list of a reconciliation pass: the file paths of the
processed entries whose outcome succeeded, in order. -/
theorem reconcileLoop_succeeded (f : StagedChange → Except String Unit)
    (g : StagedChange → List HostCall) (cs : List StagedChange)
    (st : StagingState) :
    (reconcileLoop f g cs st).succeeded =
      (cs.filter (fun c => (f c).isOk)).map (fun c => c.filePath) := by
  induction cs generalizing st with
  | nil => rfl
  | cons c rest ih =>
    match ho : f c with
    | Except.ok u =>
      simp only [reconcileLoop, ho, List.filter_cons]
      have : (Except.ok u : Except String Unit).isOk = true := rfl
      rw [this]
      simp [ih]
    | Except.error e =>
      simp only [reconcileLoop, ho, List.filter_cons]
      have : (Except.error e : Except String Unit).isOk = false := rfl
      rw [this]
      simp [ih]

/-- The failure list of a reconciliation pass: path and stringified error of
every processed entry whose outcome failed, in order. -/
theorem reconcileLoop_failed (f : StagedChange → Except String Unit)
    (g : StagedChange → List HostCall) (cs : List StagedChange)
    (st : StagingState) :
    (reconcileLoop f g cs st).failed =
      cs.filterMap (fun c =>
        match f c with
        | Except.ok _ => none
        | Except.error e => some (c.filePath, e)) := by
  induction cs generalizing st with
  | nil => rfl
  | cons c rest ih =>
    match ho : f c with
    | Except.ok u =>
      simp only [reconcileLoop, ho, List.filterMap_cons]
      simp [ih]
    | Except.error e =>
      simp only [reconcileLoop, ho, List.filterMap_cons]
      simp [ih]

/-- The host call trace of a reconciliation pass: the concatenation of the
per-entry call lists, over every processed entry whether it succeeded or
failed. -/
theorem reconcileLoop_calls (f : StagedChange → Except String Unit)
    (g : StagedChange → List HostCall) (cs : List StagedChange)
    (st : StagingState) :
    (reconcileLoop f g cs st).calls = (cs.map g).flatten := by
  induction cs generalizing st with
  | nil => rfl
  | cons c rest ih =>
    match ho : f c with
    | Except.ok u => simp [reconcileLoop, ho, ih]
    | Except.error e => simp [reconcileLoop, ho, ih]

/-- The changes record after a reconciliation pass: exactly the entries
whose key is not among the file paths of the successful processed entries
(an entry is removed on confirmed success only). -/
theorem reconcileLoop_state_changes (f : StagedChange → Except String Unit)
    (g : StagedChange → List HostCall) (cs : List StagedChange)
    (st : StagingState) :
    (reconcileLoop f g cs st).state.changes =
      st.changes.filter (fun kv =>
        decide (kv.1 ∉
          (cs.filter (fun c => (f c).isOk)).map (fun c => c.filePath))) := by
  induction cs generalizing st with
  | nil => simp [reconcileLoop]
  | cons c rest ih =>
    match ho : f c with
    | Except.ok u =>
      simp only [reconcileLoop, ho]
      rw [ih, removeChange_changes, List.filter_filter,
        List.filter_cons_of_pos (by rw [ho]; rfl)]
      apply List.filter_congr
      intro kv _
      by_cases h1 : kv.1 = c.filePath <;>
        by_cases h2 :
          kv.1 ∈ (rest.filter (fun x => (f x).isOk)).map
            (fun x => x.filePath) <;>
        simp [h1, h2]
    | Except.error e =>
      simp only [reconcileLoop, ho]
      rw [ih, List.filter_cons_of_neg (by rw [ho]; exact Bool.false_ne_true)]

/-! ## Claim C3: applyAcceptedChanges is safe to re-invoke -/

/-- Entries selected by a status filter are entries of the record, keyed by
their own file path, when keys match stored file paths. -/
theorem statusFilter_mem_changes (p : StagedChange → Bool) (st : StagingState)
    (hwf : ∀ kv ∈ st.changes, kv.2.filePath = kv.1) (c : StagedChange)
    (hc : c ∈ (st.changes.map (fun kv => kv.2)).filter p) :
    (c.filePath, c) ∈ st.changes := by
  obtain ⟨hm, hp⟩ := List.mem_filter.mp hc
  obtain ⟨kv, hkv, he⟩ := List.mem_map.mp hm
  have h1 : kv.1 = c.filePath := by rw [← hwf kv hkv, he]
  have h2 : kv = (c.filePath, c) := Prod.ext h1 he
  exact h2 ▸ hkv

/-- The file paths of the status-filtered values are distinct when the
record keys are distinct and match the stored file paths. -/
theorem statusFilter_paths_nodup (p : StagedChange → Bool) (st : StagingState)
    (hnd : (st.changes.map Prod.fst).Nodup)
    (hwf : ∀ kv ∈ st.changes, kv.2.filePath = kv.1) :
    (((st.changes.map (fun kv => kv.2)).filter p).map
      (fun c => c.filePath)).Nodup := by
  have hvals : (st.changes.map (fun kv => kv.2)).map (fun c => c.filePath) =
      st.changes.map Prod.fst := by
    rw [List.map_map]
    apply List.map_congr_left
    intro kv hkv
    exact hwf kv hkv
  have hsub : List.Sublist
      (((st.changes.map (fun kv => kv.2)).filter p).map (fun c => c.filePath))
      ((st.changes.map (fun kv => kv.2)).map (fun c => c.filePath)) :=
    (List.filter_sublist _).map _
  rw [hvals] at hsub
  exact hsub.nodup hnd

/-- C3: against a host whose writes and deletes all succeed, the first
applyAcceptedChanges pass applies exactly the accepted entries, removes all
of them from the store, and a second pass on the resulting state with no
intervening calls produces an empty applied list. -/
theorem applyAcceptedChanges_idempotent (h : Host) (st : StagingState)
    (hwrite : ∀ p c, h.writeFile p c = Except.ok ())
    (hrm : ∀ p, h.rm p = Except.ok ())
    (hwf : ∀ kv ∈ st.changes, kv.2.filePath = kv.1) :
    (applyAcceptedChanges h st).succeeded =
        (getAcceptedChanges st).map (fun c => c.filePath)
  ∧ getAcceptedChanges (applyAcceptedChanges h st).state = []
  ∧ (applyAcceptedChanges h
      (applyAcceptedChanges h st).state).succeeded = [] := by
  have hok : ∀ c, (acceptOutcome h c).isOk = true := by
    intro c
    unfold acceptOutcome
    by_cases ht : c.type = ChangeType.delete
    · rw [if_pos ht, hrm]
      rfl
    · rw [if_neg ht, hwrite]
      rfl
  have hfil : (getAcceptedChanges st).filter
      (fun c => (acceptOutcome h c).isOk) = getAcceptedChanges st :=
    List.filter_eq_self.mpr (fun c _ => hok c)
  have hsucc : (applyAcceptedChanges h st).succeeded =
      (getAcceptedChanges st).map (fun c => c.filePath) := by
    unfold applyAcceptedChanges
    rw [reconcileLoop_succeeded, hfil]
  have hstate : (applyAcceptedChanges h st).state.changes =
      st.changes.filter (fun kv =>
        decide (kv.1 ∉ (getAcceptedChanges st).map (fun c => c.filePath))) := by
    unfold applyAcceptedChanges
    rw [reconcileLoop_state_changes, hfil]
  have hempty : getAcceptedChanges (applyAcceptedChanges h st).state = [] := by
    unfold getAcceptedChanges
    apply List.filter_eq_nil_iff.mpr
    intro c hc hdec
    rw [decide_eq_true_eq] at hdec
    obtain ⟨kv, hkv, he⟩ := List.mem_map.mp hc
    rw [hstate] at hkv
    obtain ⟨hkv1, hkv2⟩ := List.mem_filter.mp hkv
    rw [decide_eq_true_eq] at hkv2
    apply hkv2
    have hmem2 : kv.2 ∈ getAcceptedChanges st := by
      unfold getAcceptedChanges
      exact List.mem_filter.mpr
        ⟨List.mem_map.mpr ⟨kv, hkv1, rfl⟩, by rw [he, decide_eq_true_eq]; exact hdec⟩
    have hkpath : kv.2.filePath ∈
        (getAcceptedChanges st).map (fun c => c.filePath) :=
      List.mem_map.mpr ⟨kv.2, hmem2, rfl⟩
    rw [hwf kv hkv1] at hkpath
    exact hkpath
  refine ⟨hsucc, hempty, ?_⟩
  have h3 : (reconcileLoop (acceptOutcome h) acceptCallsFor
      (getAcceptedChanges (applyAcceptedChanges h st).state)
      (applyAcceptedChanges h st).state).succeeded = [] := by
    rw [hempty]
    rfl
  exact h3

/-- Witness for C3 at a store holding one accepted entry and the
all-success host. -/
theorem applyAcceptedChanges_idempotent_witness :
    (applyAcceptedChanges okHost exAcceptedState).succeeded =
        (getAcceptedChanges exAcceptedState).map (fun c => c.filePath)
  ∧ getAcceptedChanges (applyAcceptedChanges okHost exAcceptedState).state = []
  ∧ (applyAcceptedChanges okHost
      (applyAcceptedChanges okHost exAcceptedState).state).succeeded = [] :=
  applyAcceptedChanges_idempotent okHost exAcceptedState
    (fun _ _ => rfl) (fun _ => rfl) (by decide)

/-! ## Claim C4: per-entry failures are recorded, entries retained -/

/-- A processed entry whose outcome fails is recorded in the failure list
with its stringified error and its store entry is retained. -/
theorem reconcileLoop_error_entry (f : StagedChange → Except String Unit)
    (g : StagedChange → List HostCall) (cs : List StagedChange)
    (st : StagingState) (c : StagedChange) (e : String)
    (hnd : (cs.map (fun x => x.filePath)).Nodup)
    (hin : (c.filePath, c) ∈ st.changes)
    (hc : c ∈ cs) (herr : f c = Except.error e) :
    (c.filePath, e) ∈ (reconcileLoop f g cs st).failed ∧
    (c.filePath, c) ∈ (reconcileLoop f g cs st).state.changes := by
  constructor
  · rw [reconcileLoop_failed]
    exact List.mem_filterMap.mpr ⟨c, hc, by rw [herr]⟩
  · rw [reconcileLoop_state_changes]
    apply List.mem_filter.mpr
    refine ⟨hin, ?_⟩
    rw [decide_eq_true_eq]
    intro hmem
    obtain ⟨c2, hc2, he2⟩ := List.mem_map.mp hmem
    have hc2in : c2 ∈ cs := (List.mem_filter.mp hc2).1
    have hc2ok : (f c2).isOk = true := (List.mem_filter.mp hc2).2
    have hceq : c2 = c := List.inj_on_of_nodup_map hnd hc2in hc he2
    rw [hceq, herr] at hc2ok
    have hfalse : (Except.error e : Except String Unit).isOk = false := rfl
    rw [hfalse] at hc2ok
    exact Bool.noConfusion hc2ok

/-- C4: during reconciliation every host call that throws for an entry is
caught and recorded as path and stringified error in the failed list of the
returned result object (never propagated as an exception), and the entry is
not removed from the store, for both applyAcceptedChanges and
applyRejectedChanges. -/
theorem reconcile_failures_recorded :
    (∀ (h : Host) (st : StagingState) (c : StagedChange) (e : String),
       (st.changes.map Prod.fst).Nodup →
       (∀ kv ∈ st.changes, kv.2.filePath = kv.1) →
       c ∈ getAcceptedChanges st →
       acceptOutcome h c = Except.error e →
       ((c.filePath, e) ∈ (applyAcceptedChanges h st).failed ∧
        (c.filePath, c) ∈ (applyAcceptedChanges h st).state.changes))
  ∧ (∀ (h : Host) (st : StagingState) (c : StagedChange) (e : String),
       (st.changes.map Prod.fst).Nodup →
       (∀ kv ∈ st.changes, kv.2.filePath = kv.1) →
       c ∈ getRejectedChanges st →
       revertOutcome h c = Except.error e →
       ((c.filePath, e) ∈ (applyRejectedChanges h st).failed ∧
        (c.filePath, c) ∈ (applyRejectedChanges h st).state.changes)) := by
  constructor
  · intro h st c e hnd hwf hc herr
    exact reconcileLoop_error_entry (acceptOutcome h) acceptCallsFor
      (getAcceptedChanges st) st c e
      (statusFilter_paths_nodup _ st hnd hwf)
      (statusFilter_mem_changes _ st hwf c hc) hc herr
  · intro h st c e hnd hwf hc herr
    exact reconcileLoop_error_entry (revertOutcome h) revertCallsFor
      (getRejectedChanges st) st c e
      (statusFilter_paths_nodup _ st hnd hwf)
      (statusFilter_mem_changes _ st hwf c hc) hc herr

/-- Witness for C4 at the mixed store and the failing host. -/
theorem reconcile_failures_recorded_witness :
    ((exAccepted.filePath, "EACCES") ∈
        (applyAcceptedChanges failHost exMixedState).failed ∧
      (exAccepted.filePath, exAccepted) ∈
        (applyAcceptedChanges failHost exMixedState).state.changes) ∧
    ((exRejectedConfig.filePath, "EACCES") ∈
        (applyRejectedChanges failHost exMixedState).failed ∧
      (exRejectedConfig.filePath, exRejectedConfig) ∈
        (applyRejectedChanges failHost exMixedState).state.changes) :=
  ⟨reconcile_failures_recorded.1 failHost exMixedState exAccepted "EACCES"
     (by decide) (by decide) (by decide) rfl,
   reconcile_failures_recorded.2 failHost exMixedState exRejectedConfig
     "EACCES" (by decide) (by decide) (by decide) rfl⟩

/-! ## Claim C5: rejected revert restores original content -/

/-- C5: reverting a rejected create performs no filesystem action and just
removes the entry; reverting a rejected delete or modify with non-null
original content invokes writeFile with exactly the original content on the
root-stripped path and, the write succeeding, removes the entry; in the
concrete scenario the rejected staged delete of config.json is reverted by a
writeFile of its original JSON content and the entry disappears. -/
theorem applyRejectedChange_revert :
    (∀ (fp : String) (h : Host) (st : StagingState) (c : StagedChange),
       getChangeForFile fp st = some c →
       c.status = ChangeStatus.rejected →
       c.type = ChangeType.create →
       applyRejectedChange fp h st =
         { success := true, error := none, calls := [],
           state := removeChange fp st })
  ∧ (∀ (fp : String) (h : Host) (st : StagingState) (c : StagedChange)
       (o : String),
       getChangeForFile fp st = some c →
       c.status = ChangeStatus.rejected →
       (c.type = ChangeType.delete ∨ c.type = ChangeType.modify) →
       c.originalContent = some o →
       h.writeFile (stripRoot c.filePath) o = Except.ok () →
       (HostCall.writeFile (stripRoot c.filePath) o ∈
          (applyRejectedChange fp h st).calls ∧
        applyRejectedChange fp h st =
          { success := true, error := none, calls := revertCallsFor c,
            state := removeChange fp st }))
  ∧ ((applyRejectedChange "config.json" okHost exRejectState).success = true ∧
     HostCall.writeFile "config.json" "\x7b\"a\":1\x7d" ∈
       (applyRejectedChange "config.json" okHost exRejectState).calls ∧
     getChangeForFile "config.json"
       (applyRejectedChange "config.json" okHost exRejectState).state =
         none) := by
  refine ⟨?_, ?_, ?_⟩
  · intro fp h st c hfind hstat htype
    unfold applyRejectedChange
    rw [hfind]
    dsimp only
    rw [if_neg (by simp [hstat])]
    obtain ⟨cid, cfp, cty, cor, cnc, cts, cst, cai, cap, cde⟩ := c
    simp only at htype
    subst htype
    cases cor with
    | none => rfl
    | some o => rfl
  · intro fp h st c o hfind hstat htype horig hwok
    unfold applyRejectedChange
    rw [hfind]
    dsimp only
    rw [if_neg (by simp [hstat])]
    obtain ⟨cid, cfp, cty, cor, cnc, cts, cst, cai, cap, cde⟩ := c
    simp only at htype horig hwok ⊢
    subst horig
    rcases htype with ht | ht <;> subst ht
    · have hro : revertOutcome h
          { id := cid, filePath := cfp, type := ChangeType.delete,
            originalContent := some o, newContent := cnc, timestamp := cts,
            status := cst, actionId := cai, autoApproved := cap,
            description := cde } = Except.ok () := hwok
      rw [hro]
      constructor
      · simp [revertCallsFor]
      · rfl
    · have hro : revertOutcome h
          { id := cid, filePath := cfp, type := ChangeType.modify,
            originalContent := some o, newContent := cnc, timestamp := cts,
            status := cst, actionId := cai, autoApproved := cap,
            description := cde } = Except.ok () := hwok
      rw [hro]
      constructor
      · simp [revertCallsFor]
      · rfl
  · refine ⟨rfl, ?_, rfl⟩
    simp [applyRejectedChange, getChangeForFile, lookupChange, exRejectState,
      exRejectedConfig, mkState, revertOutcome, okHost, revertCallsFor]
    decide

/-- Witness for C5 applying the universal parts at concrete stores. -/
theorem applyRejectedChange_revert_witness :
    (HostCall.writeFile (stripRoot exRejectedConfig.filePath)
        "\x7b\"a\":1\x7d" ∈
      (applyRejectedChange "config.json" okHost exRejectState).calls ∧
     applyRejectedChange "config.json" okHost exRejectState =
       { success := true, error := none,
         calls := revertCallsFor exRejectedConfig,
         state := removeChange "config.json" exRejectState }) ∧
    applyRejectedChange "new.ts" okHost
        (mkState [("new.ts",
          { id := "p9", filePath := "new.ts", type := ChangeType.create,
            originalContent := none, newContent := "x", timestamp := 0,
            status := ChangeStatus.rejected, actionId := "act9",
            autoApproved := false, description := none })]) =
      { success := true, error := none, calls := [],
        state := removeChange "new.ts"
          (mkState [("new.ts",
            { id := "p9", filePath := "new.ts", type := ChangeType.create,
              originalContent := none, newContent := "x", timestamp := 0,
              status := ChangeStatus.rejected, actionId := "act9",
              autoApproved := false, description := none })]) } :=
  ⟨applyRejectedChange_revert.2.1 "config.json" okHost exRejectState
     exRejectedConfig "\x7b\"a\":1\x7d" (by decide) (by decide)
     (Or.inl (by decide)) (by decide) rfl,
   applyRejectedChange_revert.1 "new.ts" okHost
     (mkState [("new.ts",
       { id := "p9", filePath := "new.ts", type := ChangeType.create,
         originalContent := none, newContent := "x", timestamp := 0,
         status := ChangeStatus.rejected, actionId := "act9",
         autoApproved := false, description := none })])
     { id := "p9", filePath := "new.ts", type := ChangeType.create,
       originalContent := none, newContent := "x", timestamp := 0,
       status := ChangeStatus.rejected, actionId := "act9",
       autoApproved := false, description := none }
     (by decide) (by decide) (by decide)⟩

/-! ## Claim C10: null original content reverts without filesystem calls -/

/-- A rejected modify or delete with null original content yields no host
calls and a success outcome. -/
theorem revert_null_original_trivial (h : Host) (c : StagedChange)
    (htype : c.type = ChangeType.modify ∨ c.type = ChangeType.delete)
    (horig : c.originalContent = none) :
    revertCallsFor c = [] ∧ revertOutcome h c = Except.ok () := by
  obtain ⟨cid, cfp, cty, cor, cnc, cts, cst, cai, cap, cde⟩ := c
  simp only at htype horig
  subst horig
  rcases htype with ht | ht <;> subst ht
  · exact ⟨rfl, rfl⟩
  · exact ⟨rfl, rfl⟩

/-- C10: the batch trace is the concatenation of the per-entry call lists;
a rejected modify or delete whose original content is null contributes no
host call, is reported in the reverted list, and its entry is removed from
the store; and the single-entry variant on such an entry returns success
with an empty trace and the entry removed. -/
theorem applyRejected_null_original :
    (∀ (h : Host) (st : StagingState),
       (applyRejectedChanges h st).calls =
         ((getRejectedChanges st).map revertCallsFor).flatten)
  ∧ (∀ (h : Host) (st : StagingState) (c : StagedChange),
       c ∈ getRejectedChanges st →
       (c.type = ChangeType.modify ∨ c.type = ChangeType.delete) →
       c.originalContent = none →
       (revertCallsFor c = [] ∧
        c.filePath ∈ (applyRejectedChanges h st).succeeded ∧
        lookupChange (applyRejectedChanges h st).state.changes
          c.filePath = none))
  ∧ (∀ (fp : String) (h : Host) (st : StagingState) (c : StagedChange),
       getChangeForFile fp st = some c →
       c.status = ChangeStatus.rejected →
       (c.type = ChangeType.modify ∨ c.type = ChangeType.delete) →
       c.originalContent = none →
       applyRejectedChange fp h st =
         { success := true, error := none, calls := [],
           state := removeChange fp st }) := by
  refine ⟨?_, ?_, ?_⟩
  · intro h st
    unfold applyRejectedChanges
    rw [reconcileLoop_calls]
  · intro h st c hc htype horig
    obtain ⟨hcalls, hout⟩ := revert_null_original_trivial h c htype horig
    have hmemfil : c ∈ (getRejectedChanges st).filter
        (fun x => (revertOutcome h x).isOk) :=
      List.mem_filter.mpr ⟨hc, by rw [hout]; rfl⟩
    refine ⟨hcalls, ?_, ?_⟩
    · unfold applyRejectedChanges
      rw [reconcileLoop_succeeded]
      exact List.mem_map.mpr ⟨c, hmemfil, rfl⟩
    · unfold applyRejectedChanges
      rw [reconcileLoop_state_changes]
      unfold lookupChange
      rw [Option.map_eq_none']
      apply List.find?_eq_none.mpr
      intro kv hkv hbeq
      obtain ⟨hkv1, hkv2⟩ := List.mem_filter.mp hkv
      rw [decide_eq_true_eq] at hkv2
      apply hkv2
      have hkeq : kv.1 = c.filePath := by simpa using hbeq
      rw [hkeq]
      exact List.mem_map.mpr ⟨c, hmemfil, rfl⟩
  · intro fp h st c hfind hstat htype horig
    obtain ⟨hcalls, hout⟩ := revert_null_original_trivial h c htype horig
    unfold applyRejectedChange
    rw [hfind]
    dsimp only
    rw [if_neg (by simp [hstat])]
    rw [hout, hcalls]

/-- Witness for C10 at the store holding a rejected modify with null
original content, against the failing host (no write is ever attempted). -/
theorem applyRejected_null_original_witness :
    (revertCallsFor exRejectedNull = [] ∧
     exRejectedNull.filePath ∈
       (applyRejectedChanges failHost exNullState).succeeded ∧
     lookupChange (applyRejectedChanges failHost exNullState).state.changes
       exRejectedNull.filePath = none) ∧
    applyRejectedChange "d.txt" failHost exNullState =
      { success := true, error := none, calls := [],
        state := removeChange "d.txt" exNullState } ∧
    (applyRejectedChanges failHost exNullState).calls =
      ((getRejectedChanges exNullState).map revertCallsFor).flatten :=
  ⟨applyRejected_null_original.2.1 failHost exNullState exRejectedNull
     (by decide) (by decide) (by decide),
   applyRejected_null_original.2.2 "d.txt" failHost exNullState
     exRejectedNull (by decide) (by decide) (by decide) (by decide),
   applyRejected_null_original.1 failHost exNullState⟩

end Devonz
